import Mathlib

/-!
Verification development for the PatternMatching repository.

This file gives a shallow embedding, in Lean 4, of the C sources of the
repository (the streaming Breslauer-Galil matcher and its supporting
components), and proves or refutes the testable properties stated in the
repository specification.

Embedding conventions, used throughout:

* C `unsigned long long` (the types `field_t`, `fingerprint_t`, `pos_t`)
  is modelled as `Nat` together with explicit wrap-around helpers
  (`u64mul`, `u64add`, `u64sub`), so every arithmetic step of the C code
  is reproduced exactly, including possible overflow behaviour.
* C `char` is signed on the platforms this repository targets (x86 gcc and
  MSVC).  A stream or pattern byte is modelled as a `Nat` below 256; where
  the C code converts a `char` to an unsigned integer (for example the cast
  `(fingerprint_t)c`, or the implicit conversion in `*(seq++) * current_rn`),
  the sign extension of the two's-complement value is modelled explicitly by
  `charToU64`.  Where the C code uses a `char` as an array subscript
  (the Aho-Corasick child tables), the signed value is modelled by
  `signedChar`.  Comparisons of two `char` values are byte equality.
* Arrays owned by a struct are modelled as `List` fields; out parameters
  become extra components of the result tuple.
* The C `rand()` call in `bg_new` is the only non-determinism; the embedded
  `bg_new` takes the drawn field element `r` as an explicit parameter.
* Unbounded `while` loops whose termination argument is data-dependent are
  modelled with an explicit fuel argument that provably dominates the loop
  count for the states the program can reach; loops with a structurally
  decreasing argument use well-founded recursion directly.
-/

namespace PatternMatching

/-! ## Unsigned 64-bit arithmetic model -/

/-- Modulus of C `unsigned long long` arithmetic. -/
def U64 : Nat := 18446744073709551616

/-- Wrap-around product, modelling C `unsigned long long` multiplication. -/
def u64mul (a b : Nat) : Nat := (a * b) % U64

/-- Wrap-around sum, modelling C `unsigned long long` addition. -/
def u64add (a b : Nat) : Nat := (a + b) % U64

/-- Wrap-around difference, modelling C `unsigned long long` subtraction. -/
def u64sub (a b : Nat) : Nat := (a + U64 - b % U64) % U64

/-- Value of a C `char` holding byte `b`, after conversion to
`unsigned long long` (sign extension of the two's-complement value, as in
the expressions `(fingerprint_t)c` and `*(seq++) * current_rn` of the
source).  Bytes below 128 are unchanged; byte `b ≥ 128` holds the signed
value `b - 256` and converts to `2^64 - (256 - b)`. -/
def charToU64 (b : Nat) : Nat := if b < 128 then b else U64 - (256 - b)

/-- Value of a C `char` holding byte `b` when used in a signed integer
context, such as an array subscript (`children[pat[i]]` in mpac.c). -/
def signedChar (b : Nat) : Int := if b < 128 then (b : Int) else (b : Int) - 256

/-! ## Field (field.h, field.c)

The C struct `FieldVal` caches a field value together with its modular
inverse. -/

/-- Embedding of the C struct `FieldVal`: a field value and its cached
inverse. -/
structure FieldVal where
  val : Nat
  inv : Nat
deriving Repr, DecidableEq

/-- Embedding of `field_div` (field.h).  The C code saves `denomerator->val`
before writing `dst->val` so that aliasing `dst == denomerator` is harmless;
the pure embedding reads both inputs before constructing the result, which
is exactly that behaviour. -/
def field_div (numerator denomerator : FieldVal) (p : Nat) : FieldVal :=
  let den_val := denomerator.val
  { val := u64mul numerator.val denomerator.inv % p
    inv := u64mul den_val numerator.inv % p }

/-- Embedding of `field_mul` (field.h). -/
def field_mul (val1 val2 : FieldVal) (p : Nat) : FieldVal :=
  { val := u64mul val1.val val2.val % p
    inv := u64mul val1.inv val2.inv % p }

/-- Embedding of the `while (rr != 0)` loop of `calculate_inverse`
(field.c).  State `(r, t, rr, tt)` as in the source.  The first argument
is fuel dominating the iteration count: each pass replaces `rr` by
`r - (r / rr) * rr = r % rr < rr`, so `rr` strictly decreases and the
initial `rr` bounds the number of passes. -/
def calcInvLoop (p : Nat) : Nat → Nat → Nat → Nat → Nat → Nat
  | 0, _, t, _, _ => t
  | fuel + 1, r, t, rr, tt =>
    if rr = 0 then t
    else
      let q := r / rr
      calcInvLoop p fuel rr tt (r - q * rr)
        (if t > u64mul q tt then t - u64mul q tt
         else u64sub (u64add t p) (u64mul q tt % p))

/-- Embedding of `calculate_inverse` (field.c): extended Euclid returning
the inverse of `a` in the field of size `p`. -/
def calculate_inverse (a p : Nat) : Nat :=
  calcInvLoop p (a + 1) p 0 a 1

/-! ## Fingerprint (Fingerprint.h, Fingerprint.c) -/

/-- Loop body of `calc_fp` (Fingerprint.c): runs over the remaining
sequence carrying `(ret, current_rn, current_inv_rn)`.  Each step is
`ret += c * current_rn; ret %= p` with the `char` converted as in C, then
`current_rn = (current_rn * r.val) % p` and likewise for the inverse. -/
def calcFpLoop (r : FieldVal) (p : Nat) : List Nat → Nat → Nat → Nat → Nat × Nat × Nat
  | [], ret, rn, irn => (ret, rn, irn)
  | c :: rest, ret, rn, irn =>
      calcFpLoop r p rest (u64add ret (u64mul (charToU64 c) rn) % p)
        (u64mul rn r.val % p) (u64mul irn r.inv % p)

/-- Embedding of `calc_fp` (Fingerprint.c).  The C function returns the
fingerprint and writes `r^len` (value and inverse) into the out parameter
`rn`; the embedding returns the pair `(fingerprint, rn)`. -/
def calc_fp (seq : List Nat) (r : FieldVal) (p : Nat) : Nat × FieldVal :=
  let res := calcFpLoop r p seq 0 1 1
  (res.1, ⟨res.2.1, res.2.2⟩)

/-- Embedding of `calc_fp_with_prefix` (Fingerprint.c): extends a known
prefix fingerprint over `seq` (the part of the sequence after the prefix),
starting from `rn = r^prefix_len`.  The caller passes the sub-sequence
`pattern[prefix_len..len)` explicitly. -/
def calc_fp_with_prefix (seq : List Nat) (prefix_fp : Nat) (rn : FieldVal)
    (r : FieldVal) (p : Nat) : Nat × FieldVal :=
  let res := calcFpLoop r p seq prefix_fp rn.val rn.inv
  (res.1, ⟨res.2.1, res.2.2⟩)

/-- Embedding of `calc_fp_suffix` (Fingerprint.h):
`((all_fp > prefix_fp ? all_fp - prefix_fp : p - prefix_fp + all_fp) * r_pre->inv) % p`. -/
def calc_fp_suffix (all_fp prefix_fp : Nat) (r_pre : FieldVal) (p : Nat) : Nat :=
  u64mul (if all_fp > prefix_fp then all_fp - prefix_fp
          else u64add (u64sub p prefix_fp) all_fp) r_pre.inv % p

/-- Embedding of `calc_fp_prefix` (Fingerprint.h).  (The Lean name drops
the last letters of the C name for lexical reasons; it is the function
computing the prefix fingerprint from the whole and the suffix.) -/
def calc_fp_pref (all_fp suffix_fp : Nat) (r_pre : FieldVal) (p : Nat) : Nat :=
  let suffix_part := u64mul suffix_fp r_pre.val % p
  (if all_fp > suffix_part then all_fp - suffix_part
   else u64add (u64sub p suffix_part) all_fp) % p

/-- Embedding of `calc_fp_from_prefix_suffix` (Fingerprint.h):
`(prefix_fp + ((suffix_fp * r_pre->val) % p)) % p`. -/
def calc_fp_from_prefix_suffix (prefix_fp suffix_fp : Nat) (r_pre : FieldVal)
    (p : Nat) : Nat :=
  u64add prefix_fp (u64mul suffix_fp r_pre.val % p) % p

/-- Mathematical fingerprint polynomial `Σ s[i] * x^i` (no reduction),
the value whose residue mod p `calc_fp` computes for byte strings without
high bytes. -/
def fpPoly (x : Nat) : List Nat → Nat
  | [] => 0
  | c :: t => c + x * fpPoly x t

/-! ## Real-time KMP (kmprt.h, kmprt.c)

The engine state mirrors the C struct `KMPRealTime`.  The flag constants
are those of kmprt.h. -/

/-- Flag `KMP_LOOP_FAIL_FLAG` of kmprt.h. -/
def KMP_LOOP_FAIL_FLAG : Nat := 1

/-- Flag `KMP_HAVE_BUFFER_FLAG` of kmprt.h. -/
def KMP_HAVE_BUFFER_FLAG : Nat := 2

/-- Embedding of the C struct `KMPRealTime` (kmprt.h). -/
structure KMPRealTime where
  n : Nat
  pattern : List Nat
  failure_table : List Nat
  offset : Nat
  buffer : List Nat
  buf_start : Nat
  buf_end : Nat
  flags : Nat
deriving Repr, DecidableEq

/-- Loop of `kmp_create_failure_table` (kmprt.c), with state `(pos, cnd)`
and the table built so far.  The fuel argument dominates the loop count:
each iteration either advances `pos` (measure `2*(n + 1 - pos) + cnd`
drops by at least 1, since `cnd` grows by at most 1 when `pos` does) or
strictly decreases `cnd`, so `2 * n + 2` iterations always suffice. -/
def kmpFailLoop (pattern : List Nat) (n : Nat) : Nat → Nat → Nat → List Nat → List Nat
  | 0, _, _, ft => ft
  | fuel + 1, pos, cnd, ft =>
    if pos < n + 1 then
      if pattern.getD (pos - 1) 0 = pattern.getD cnd 0 then
        kmpFailLoop pattern n fuel (pos + 1) (cnd + 1) (ft.set pos (cnd + 1))
      else if cnd > 0 then
        kmpFailLoop pattern n fuel pos (ft.getD cnd 0) ft
      else
        kmpFailLoop pattern n fuel (pos + 1) cnd (ft.set pos 0)
    else ft

/-- Embedding of `kmp_create_failure_table` (kmprt.c): the failure table of
`pattern[0..n)`, of size `n + 1`.  Entries 0 and 1 are zero; the loop fills
positions 2 through n. -/
def kmp_create_failure_table (pattern : List Nat) (n : Nat) : List Nat :=
  kmpFailLoop pattern n (2 * n + 2) 2 0 (List.replicate (n + 1) 0)

/-- Embedding of `kmp_new` (kmprt.c): the engine built for `pattern` of
length `n`.  The C code copies the pattern and allocates a ring buffer of
`n` (uninitialised) bytes; the embedding initialises the buffer with
zeros, faithful because the C code never reads a buffer cell it has not
written. -/
def kmp_new (pattern : List Nat) (n : Nat) : KMPRealTime :=
  { n := n
    pattern := pattern
    failure_table := kmp_create_failure_table pattern n
    offset := 0
    buffer := List.replicate n 0
    buf_start := 0
    buf_end := 0
    flags := 0 }

/-- Embedding of `kmp_get_period` (kmprt.c): `n - failure_table[n]`. -/
def kmp_get_period (pattern : List Nat) (n : Nat) : Nat :=
  n - (kmp_create_failure_table pattern n).getD n 0

/-- Embedding of `kmp_get_pattern_len` (kmprt.h). -/
def kmp_get_pattern_len (kmp : KMPRealTime) : Nat := kmp.n

/-- Embedding of `_kmp_move_failure_function` (kmprt.c): one failure step.
Returns the updated engine and whether the failure loop finished. -/
def kmpMoveFailureFunction (kmp : KMPRealTime) (c : Nat) : KMPRealTime × Bool :=
  let o := kmp.failure_table.getD kmp.offset 0
  if kmp.pattern.getD o 0 = c then ({ kmp with offset := o + 1 }, true)
  else if o = 0 then ({ kmp with offset := o }, true)
  else ({ kmp with offset := o }, false)

/-- Embedding of `_kmp_add_char_to_buffer` (kmprt.c). -/
def kmpAddCharToBuffer (kmp : KMPRealTime) (c : Nat) : KMPRealTime :=
  if kmp.flags &&& KMP_HAVE_BUFFER_FLAG ≠ 0 then
    let be := (kmp.buf_end + 1) % kmp.n
    { kmp with buf_end := be, buffer := kmp.buffer.set be c }
  else
    { kmp with buf_start := 0, buf_end := 0, buffer := kmp.buffer.set 0 c
               flags := kmp.flags ||| KMP_HAVE_BUFFER_FLAG }

/-- Embedding of `_kmp_push_char_to_buffer` (kmprt.c): insert at the front
of the ring (`MOD_DEC` on `buf_start`). -/
def kmpPushCharToBuffer (kmp : KMPRealTime) (c : Nat) : KMPRealTime :=
  if kmp.flags &&& KMP_HAVE_BUFFER_FLAG ≠ 0 then
    let bs := if kmp.buf_start = 0 then kmp.n - 1 else kmp.buf_start - 1
    { kmp with buf_start := bs, buffer := kmp.buffer.set bs c }
  else
    { kmp with buf_start := 0, buf_end := 0, buffer := kmp.buffer.set 0 c
               flags := kmp.flags ||| KMP_HAVE_BUFFER_FLAG }

/-- Embedding of `_kmp_pop_buffer` (kmprt.c).  Returns the popped char. -/
def kmpPopBuffer (kmp : KMPRealTime) : KMPRealTime × Nat :=
  let c := kmp.buffer.getD kmp.buf_start 0
  let k := if kmp.buf_start = kmp.buf_end then
             { kmp with flags := kmp.flags &&& (15 - KMP_HAVE_BUFFER_FLAG) }
           else kmp
  ({ k with buf_start := (k.buf_start + 1) % k.n }, c)

/-- Embedding of `_kmp_read_char` (kmprt.c), instrumented: the third
component counts the `_kmp_move_failure_function` invocations this call
performed (ghost data used by the per-character work-bound theorems; the
first two components reproduce the C state change and return value). -/
def kmpReadCharAuxCnt (kmp : KMPRealTime) (c : Nat) : KMPRealTime × Bool × Nat :=
  if kmp.pattern.getD kmp.offset 0 = c then
    let k := { kmp with offset := kmp.offset + 1 }
    if k.offset = k.n then
      ({ k with offset := k.failure_table.getD k.n 0 }, true, 0)
    else (k, false, 0)
  else if kmp.offset = 0 then (kmp, false, 0)
  else
    let s1 := kmpMoveFailureFunction kmp c
    if s1.2 then (s1.1, false, 1)
    else
      let s2 := kmpMoveFailureFunction s1.1 c
      if s2.2 then (s2.1, false, 2)
      else
        let k3 := { s2.1 with flags := s2.1.flags ||| KMP_LOOP_FAIL_FLAG }
        (kmpPushCharToBuffer k3 c, false, 2)

/-- Embedding of `kmp_read_char` (kmprt.c), instrumented with the count of
`_kmp_move_failure_function` invocations performed during the call. -/
def kmpReadCharCnt (kmp : KMPRealTime) (c : Nat) : KMPRealTime × Bool × Nat :=
  if kmp.flags &&& KMP_LOOP_FAIL_FLAG ≠ 0 then
    let k0 := kmpAddCharToBuffer kmp c
    let s1 := kmpMoveFailureFunction k0 (k0.buffer.getD k0.buf_start 0)
    if s1.2 then
      let k1 := (kmpPopBuffer s1.1).1
      ({ k1 with flags := k1.flags &&& (15 - KMP_LOOP_FAIL_FLAG) }, false, 1)
    else
      let s2 := kmpMoveFailureFunction s1.1 (s1.1.buffer.getD s1.1.buf_start 0)
      if s2.2 then
        let k2 := (kmpPopBuffer s2.1).1
        ({ k2 with flags := k2.flags &&& (15 - KMP_LOOP_FAIL_FLAG) }, false, 2)
      else (s2.1, false, 2)
  else if kmp.flags &&& KMP_HAVE_BUFFER_FLAG ≠ 0 then
    let k0 := kmpAddCharToBuffer kmp c
    let p1 := kmpPopBuffer k0
    let r1 := kmpReadCharAuxCnt p1.1 p1.2
    if r1.2.1 then (r1.1, true, r1.2.2)
    else
      let p2 := kmpPopBuffer r1.1
      let r2 := kmpReadCharAuxCnt p2.1 p2.2
      (r2.1, r2.2.1, r1.2.2 + r2.2.2)
  else
    kmpReadCharAuxCnt kmp c

/-- Embedding of `kmp_read_char` (kmprt.c): state change and match flag of
one stream character (the instrumentation of `kmpReadCharCnt` dropped). -/
def kmp_read_char (kmp : KMPRealTime) (c : Nat) : KMPRealTime × Bool :=
  let r := kmpReadCharCnt kmp c
  (r.1, r.2.1)

/-- Embedding of `kmp_reset` (kmprt.c, declared in kmprt.h): return to the
initial streaming state, keeping the compiled structures. -/
def kmp_reset (kmp : KMPRealTime) : KMPRealTime :=
  { kmp with offset := 0, buf_start := 0, buf_end := 0, flags := 0 }

/-- Outputs of a run of `kmp_read_char` over a text, from the freshly
constructed engine for `pattern`. -/
def kmpRunOutputs (pattern text : List Nat) : List Bool :=
  (text.foldl
    (fun (st : KMPRealTime × List Bool) c =>
      let r := kmp_read_char st.1 c
      (r.1, st.2 ++ [r.2]))
    (kmp_new pattern pattern.length, [])).2

/-- Failure-step counts of each call in a run of `kmp_read_char` over a
text, from the freshly constructed engine for `pattern`. -/
def kmpRunCounts (pattern text : List Nat) : List Nat :=
  (text.foldl
    (fun (st : KMPRealTime × List Nat) c =>
      let r := kmpReadCharCnt st.1 c
      (r.1, st.2 ++ [r.2.2]))
    (kmp_new pattern pattern.length, [])).2

/-! ### Occurrence specification

The reference notion of pattern occurrence, used by the functional
correctness claims: `P` occurs in `T` ending at position `i` when the
`|P|` characters of `T` that end at index `i` (inclusive) are exactly
`P`. -/

/-- The pattern `P` occurs in text `T` with its last character at index
`i`. -/
def occursEndingAt (P T : List Nat) (i : Nat) : Bool :=
  decide (P.length ≥ 1) && decide (P.length ≤ i + 1) && decide (i < T.length) &&
    decide ((T.take (i + 1)).drop (i + 1 - P.length) = P)

/-- All end positions of occurrences of `P` in `T`. -/
def occEnds (P T : List Nat) : List Nat :=
  (List.range T.length).filter (fun i => occursEndingAt P T i)

/-! ## Breslauer-Galil single-pattern engine (bgps.h, bgps.c)

Embedding of the current draft of bgps.c (the one whose `_bgps_add_vo`
takes the `BGStruct` and stage index and whose `bg_read_char` handles the
`N_STAGES == 0` case).  Stream positions and stage lengths are modelled
with plain `Nat` arithmetic: they stay far below `2^64` for any stream the
program can process, so the C `unsigned long long`/`int` operations on
them never wrap.  Fingerprint and field arithmetic keeps the explicit
wrap-around helpers. -/

/-- Flag `BG_HAVE_LAST_STAGE_FLAG` (bgps.h). -/
def BG_HAVE_LAST_STAGE_FLAG : Nat := 1

/-- Flag `BG_HAVE_BEFORE_LAST_STAGE_FLAG` (bgps.h). -/
def BG_HAVE_BEFORE_LAST_STAGE_FLAG : Nat := 2

/-- Flag `BG_NEED_BEFORE_LAST_STAGE_FLAG` (bgps.h). -/
def BG_NEED_BEFORE_LAST_STAGE_FLAG : Nat := 4

/-- Flag `BG_SHORT_PATTERN_FLAG` (bgps.h). -/
def BG_SHORT_PATTERN_FLAG : Nat := 8

/-- Constant `BG_SHORT_PATTERN_LENGTH` (bgps.h). -/
def BG_SHORT_PATTERN_LENGTH : Nat := 8

/-- Embedding of the C struct `PosInfo` (bgps.h): information about one
stream position (`r = r^pos`, the position, and the fingerprint of the
stream strictly before it). -/
structure PosInfo where
  r : FieldVal
  pos : Nat
  fp : Nat
deriving Repr, DecidableEq

/-- Embedding of the C struct `VOLinearProgression` (bgps.h): the viable
occurrences of one stage, stored as an arithmetic progression. -/
structure VOLinearProgression where
  first : PosInfo
  step : PosInfo
  n : Nat
deriving Repr, DecidableEq

/-- The all-zero `VOLinearProgression`, as produced by `memset 0`. -/
def emptyVO : VOLinearProgression :=
  ⟨⟨⟨0, 0⟩, 0, 0⟩, ⟨⟨0, 0⟩, 0, 0⟩, 0⟩

/-- Embedding of the C struct `BGStruct` (bgps.h). -/
structure BGStruct where
  r : FieldVal
  current_r : FieldVal
  first_stage_r : FieldVal
  current_pos : Nat
  last_kmp_period_match_pos : Nat
  current_fp : Nat
  p : Nat
  fps : List Nat
  vos : List VOLinearProgression
  kmp_period : KMPRealTime
  kmp_remaining : Option KMPRealTime
  last_fps : List Nat
  n : Nat
  flags : Nat
  logn : Nat
  loglogn : Nat
  first_stage : Nat
  current_stage : Nat
  n_kmp_period : Nat
  current_n_kmp_period : Nat
deriving Repr, DecidableEq

/-- Macro `N_STAGES` (bgps.h): `logn - first_stage`. -/
def N_STAGES (bg : BGStruct) : Nat := bg.logn - bg.first_stage

/-- Embedding of `bg_log2` (bgps.c): branchless floor/ceil base-2
logarithm by successive mask tests. -/
def bg_log2 (x : Nat) (ceil : Bool) : Nat :=
  let masks : List (Nat × Nat) :=
    [(0xFFFFFFFF00000000, 32), (0xFFFF0000, 16), (0xFF00, 8),
     (0xF0, 4), (0xC, 2), (0x2, 1)]
  let y0 : Nat := if !ceil || (x &&& (x - 1)) = 0 then 0 else 1
  (masks.foldl
    (fun (xy : Nat × Nat) mj =>
      let k := if xy.1 &&& mj.1 = 0 then 0 else mj.2
      (xy.1 >>> k, xy.2 + k))
    (x, y0)).2

/-- Embedding of `real_stage_to_len` (bgps.c). -/
def real_stage_to_len (bg : BGStruct) (stage_num : Nat) : Nat :=
  if stage_num = bg.logn then bg.n else 1 <<< stage_num

/-- Embedding of `len_to_real_stage` (bgps.c). -/
def len_to_real_stage (bg : BGStruct) (len : Nat) : Nat :=
  if len = bg.n then bg.logn else bg_log2 len false

/-- Embedding of `stage_to_len` (bgps.c). -/
def stage_to_len (bg : BGStruct) (stage_num : Nat) : Nat :=
  real_stage_to_len bg (stage_num + bg.first_stage)

/-- Loop of `_bgps_find_period_continue` (bgps.c), with fuel dominating
the loop count (`all - n` iterations at most, so any fuel of at least
`all + 1` suffices; when it runs out the current `n` is returned, which
never happens for the fuel the wrapper passes). -/
def bgFindPeriodContinueLoop (pattern : List Nat) (all period : Nat) :
    Nat → Nat → Nat
  | 0, n => n
  | fuel + 1, n =>
    if n < all then
      if pattern.getD n 0 ≠ pattern.getD (n % period) 0 then n
      else bgFindPeriodContinueLoop pattern all period fuel (n + 1)
    else n

/-- Embedding of `_bgps_find_period_continue` (bgps.c): first position at
which the period of `pattern[0..n)` stops continuing in
`pattern[0..all)`, or `all` if it continues throughout. -/
def bgFindPeriodContinue (pattern : List Nat) (all n period : Nat) : Nat :=
  bgFindPeriodContinueLoop pattern all period (all + 1) n

/-- Fingerprint-table loop of `_bgps_init_fps` (bgps.c): for
`i` from `first_stage + 1` up to `logn - 1` extends the previous stage
fingerprint over `pattern[2^(i-1) .. 2^i)`, threading the out-parameter
`rn`.  Returns the accumulated table, the last fingerprint and `rn`.
The first argument is fuel dominating the iteration count (`logn`
iterations at most; `bg_new` passes `logn`). -/
def bgFpsLoop (pattern : List Nat) (r : FieldVal) (p logn : Nat) :
    Nat → Nat → Nat → FieldVal → List Nat → List Nat × Nat × FieldVal
  | 0, _, prev, rn, acc => (acc, prev, rn)
  | fuel + 1, i, prev, rn, acc =>
    if i < logn then
      let seq := (pattern.drop (1 <<< (i - 1))).take ((1 <<< i) - (1 <<< (i - 1)))
      let res := calc_fp_with_prefix seq prev rn r p
      bgFpsLoop pattern r p logn fuel (i + 1) res.1 res.2 (acc ++ [res.1])
    else (acc, prev, rn)

/-- Embedding of `_bgps_init_kmp` combined with `_bgps_init_fps` and the
remaining construction steps of `bg_new` (bgps.c).  The C `rand()` draw is
replaced by the parameter `rv` (the drawn field element); its inverse is
computed with `calculate_inverse` exactly as in the source. -/
def bg_new (pattern : List Nat) (n p rv : Nat) : BGStruct :=
  let zeroKmp : KMPRealTime := ⟨0, [], [], 0, [], 0, 0, 0⟩
  let bg0 : BGStruct :=
    { r := ⟨0, 0⟩, current_r := ⟨0, 0⟩, first_stage_r := ⟨0, 0⟩
      current_pos := 0, last_kmp_period_match_pos := 0, current_fp := 0
      p := 0, fps := [], vos := [], kmp_period := zeroKmp
      kmp_remaining := none, last_fps := [], n := n, flags := 0
      logn := 0, loglogn := 0, first_stage := 0, current_stage := 0
      n_kmp_period := 0, current_n_kmp_period := 0 }
  if n ≤ BG_SHORT_PATTERN_LENGTH then
    { bg0 with flags := BG_SHORT_PATTERN_FLAG, kmp_period := kmp_new pattern n }
  else
    let logn := bg_log2 n true
    let loglogn := bg_log2 logn true + 1
    -- _bgps_init_kmp
    let stage_loglogn_period := kmp_get_period pattern (1 <<< loglogn)
    let period_stopped_pos := bgFindPeriodContinue pattern n (1 <<< loglogn) stage_loglogn_period
    let bg1 := { bg0 with logn := logn, loglogn := loglogn }
    let first_stage := len_to_real_stage bg1 period_stopped_pos
    let bg2 := { bg1 with first_stage := first_stage }
    let first_stage_len := real_stage_to_len bg2 first_stage
    let n_kmp_period := first_stage_len / stage_loglogn_period
    let remaining := first_stage_len % stage_loglogn_period
    let kmp_period := kmp_new pattern stage_loglogn_period
    let kmp_remaining := if remaining ≠ 0 then some (kmp_new pattern remaining) else none
    -- field element
    let r : FieldVal := ⟨rv, calculate_inverse rv p⟩
    -- _bgps_init_fps
    let res0 := calc_fp (pattern.take (stage_to_len bg2 0)) r p
    let first_stage_r := field_div res0.2 r p
    let loopRes := bgFpsLoop pattern r p logn logn (first_stage + 1) res0.1 res0.2 [res0.1]
    let fps :=
      if first_stage ≠ logn then
        let seq := (pattern.drop (1 <<< (logn - 1))).take (n - (1 <<< (logn - 1)))
        let last := calc_fp_with_prefix seq loopRes.2.1 loopRes.2.2 r p
        loopRes.1 ++ [last.1]
      else loopRes.1
    let needFlag :=
      if first_stage ≠ logn ∧ n - (1 <<< (logn - 1)) < logn then
        BG_NEED_BEFORE_LAST_STAGE_FLAG
      else 0
    { bg2 with
        kmp_period := kmp_period, kmp_remaining := kmp_remaining
        n_kmp_period := n_kmp_period, current_n_kmp_period := 0
        last_kmp_period_match_pos := 0, p := p, r := r
        first_stage_r := first_stage_r, fps := fps, flags := needFlag
        last_fps := List.replicate logn 0
        vos := List.replicate (N_STAGES bg2) emptyVO
        current_fp := 0, current_r := ⟨1, 1⟩, current_pos := 0, current_stage := 0 }

/-- Embedding of `_bgps_add_vo` (bgps.c, the draft taking the `BGStruct`
and a stage index).  Returns the updated struct and `true` for success,
`false` for the rejection the source comments call a fingerprint
collision. -/
def bgAddVo (bg : BGStruct) (stage pos fp : Nat) (rn : FieldVal) : BGStruct × Bool :=
  let v := bg.vos.getD stage emptyVO
  if v.n = 0 then
    let v1 := { v with first := ⟨rn, pos, fp⟩, n := 1 }
    let flags1 :=
      if stage = bg.logn then bg.flags ||| BG_HAVE_LAST_STAGE_FLAG
      else if bg.flags &&& BG_NEED_BEFORE_LAST_STAGE_FLAG ≠ 0 ∧ stage = bg.logn - 1 then
        bg.flags ||| BG_HAVE_BEFORE_LAST_STAGE_FLAG
      else bg.flags
    ({ bg with vos := bg.vos.set stage v1, flags := flags1 }, true)
  else if v.n = 1 then
    let stepFp := calc_fp_suffix fp v.first.fp v.first.r bg.p
    let stepR := field_div rn v.first.r bg.p
    let v1 := { v with step := ⟨stepR, pos - v.first.pos, stepFp⟩, n := 2 }
    ({ bg with vos := bg.vos.set stage v1 }, true)
  else
    if v.first.pos + (v.n + 1) * v.step.pos ≠ pos then (bg, false)
    else ({ bg with vos := bg.vos.set stage { v with n := v.n + 1 } }, true)

/-- Embedding of `_bgps_remove_first_vo` (bgps.c, the draft taking the
`BGStruct` and a stage index). -/
def bgRemoveFirstVo (bg : BGStruct) (stage : Nat) : BGStruct :=
  let v := bg.vos.getD stage emptyVO
  if v.n = 0 then bg
  else if v.n = 1 then
    let flags1 :=
      if stage = bg.logn then bg.flags &&& (15 - BG_HAVE_LAST_STAGE_FLAG)
      else if stage = bg.logn - 1 then bg.flags &&& (15 - BG_HAVE_BEFORE_LAST_STAGE_FLAG)
      else bg.flags
    { bg with vos := bg.vos.set stage { v with n := 0 }, flags := flags1 }
  else
    let f1 : PosInfo :=
      ⟨field_mul v.first.r v.step.r bg.p, v.first.pos + v.step.pos,
       calc_fp_from_prefix_suffix v.first.fp v.step.fp v.step.r bg.p⟩
    { bg with vos := bg.vos.set stage { v with first := f1, n := v.n - 1 } }

/-- Embedding of `_bgps_vo_stage_upgrade` (bgps.c).  The second returned
component is the C return value (1 when an upgrade happened); the third
is ghost instrumentation recording whether the fingerprint-collision log
line would have been emitted (the stage-wipe branch). -/
def bgVoStageUpgrade (bg : BGStruct) (stage_num : Nat) : BGStruct × Bool × Bool :=
  let v := bg.vos.getD stage_num emptyVO
  if v.n = 0 then (bg, false, false)
  else
    let end_pos := v.first.pos + stage_to_len bg (stage_num + 1)
    if bg.current_pos < end_pos ∨ bg.current_pos ≥ end_pos + bg.logn then
      (bg, false, false)
    else
      let check_fp := calc_fp_suffix (bg.last_fps.getD (end_pos % bg.logn) 0)
        v.first.fp v.first.r bg.p
      let step1 : BGStruct × Bool × Bool :=
        if check_fp = bg.fps.getD (stage_num + 1) 0 then
          if stage_num = N_STAGES bg - 1 then (bg, true, false)
          else
            let add := bgAddVo bg (stage_num + 1) v.first.pos v.first.fp v.first.r
            if !add.2 then
              let wiped := { add.1 with
                vos := add.1.vos.set (stage_num + 1)
                  { add.1.vos.getD (stage_num + 1) emptyVO with n := 0 } }
              (wiped, false, true)
            else (add.1, true, false)
        else (bg, false, false)
      (bgRemoveFirstVo step1.1 stage_num, step1.2.1, step1.2.2)

/-- Embedding of `_bgps_check_last_stages` (bgps.c): every-character check
of the top stage (and the one below it when flagged).  Returns the match
flag of the top stage and the ghost collision flag. -/
def bgCheckLastStages (bg : BGStruct) : BGStruct × Bool × Bool :=
  let s1 : BGStruct × Bool :=
    if bg.flags &&& BG_HAVE_BEFORE_LAST_STAGE_FLAG ≠ 0 then
      let u := bgVoStageUpgrade bg (N_STAGES bg - 2)
      (u.1, u.2.2)
    else (bg, false)
  if s1.1.flags &&& BG_HAVE_LAST_STAGE_FLAG ≠ 0 then
    let u := bgVoStageUpgrade s1.1 (N_STAGES s1.1 - 1)
    (u.1, u.2.1, s1.2 || u.2.2)
  else (s1.1, false, s1.2)

/-- Embedding of `_bgps_check_first_stage` (bgps.c): feed the character to
the period (and remaining) KMP engines and decide whether the first stage
matches at the current position. -/
def bgCheckFirstStage (bg : BGStruct) (c : Nat) : BGStruct × Bool :=
  let kp := kmp_read_char bg.kmp_period c
  let kmp_period_match := kp.2
  let period_len := kmp_get_pattern_len kp.1
  let kr : Option KMPRealTime × Bool :=
    match bg.kmp_remaining with
    | some k => let r := kmp_read_char k c; (some r.1, r.2)
    | none => (none, true)
  let remaining_len := match kr.1 with
    | some k => kmp_get_pattern_len k
    | none => 0
  let bg1 := { bg with kmp_period := kp.1, kmp_remaining := kr.1 }
  let bg2 :=
    if kmp_period_match then
      { bg1 with
          current_n_kmp_period :=
            if bg1.last_kmp_period_match_pos + period_len = bg1.current_pos then
              bg1.current_n_kmp_period + 1
            else 1
          last_kmp_period_match_pos := bg1.current_pos }
    else
      if bg1.last_kmp_period_match_pos + period_len ≤ bg1.current_pos then
        { bg1 with current_n_kmp_period := 0 }
      else bg1
  (bg2, kr.2 ∧ bg2.current_n_kmp_period ≥ bg2.n_kmp_period ∧
        bg2.last_kmp_period_match_pos + remaining_len = bg2.current_pos)

/-- Embedding of `_bg_add_to_first_stage` (bgps.c): offer the position
ending at the current character to stage 0.  The second component is the
ghost collision flag (the source logs and ignores the failed add). -/
def bgAddToFirstStage (bg : BGStruct) : BGStruct × Bool :=
  let vo_pos := bg.current_pos + 1 - stage_to_len bg 0
  let vo_r := field_div bg.current_r bg.first_stage_r bg.p
  let vo_fp := calc_fp_pref bg.current_fp (bg.fps.getD 0 0) vo_r bg.p
  let add := bgAddVo bg 0 vo_pos vo_fp vo_r
  if !add.2 then (bg, true) else (add.1, false)

/-- Embedding of `bg_read_char` (bgps.c): one stream character.  Returns
the updated struct, the match flag, and the ghost flag recording whether
any fingerprint-collision log line would have been emitted during the
call. -/
def bg_read_char (bg : BGStruct) (c : Nat) : BGStruct × Bool × Bool :=
  if bg.flags &&& BG_SHORT_PATTERN_FLAG ≠ 0 then
    let k := kmp_read_char bg.kmp_period c
    ({ bg with kmp_period := k.1 }, k.2, false)
  else if N_STAGES bg = 0 then
    let r := bgCheckFirstStage bg c
    (r.1, r.2, false)
  else
    let fp1 := calc_fp_from_prefix_suffix bg.current_fp (charToU64 c) bg.current_r bg.p
    let bg1 := { bg with current_fp := fp1
                         last_fps := bg.last_fps.set (bg.current_pos % bg.logn) fp1 }
    let cf := bgCheckFirstStage bg1 c
    let af : BGStruct × Bool := if cf.2 then bgAddToFirstStage cf.1 else (cf.1, false)
    let cl := bgCheckLastStages af.1
    let ret := cl.2.1
    let rr : BGStruct × Bool :=
      if N_STAGES cl.1 > 1 then
        let u := bgVoStageUpgrade cl.1 cl.1.current_stage
        let ns1 := N_STAGES u.1 - 1
        ({ u.1 with current_stage :=
             if u.1.current_stage ≠ 0 then u.1.current_stage - 1 else ns1 - 1 },
         u.2.2)
      else (cl.1, false)
    let bgF := { rr.1 with current_r := field_mul rr.1.current_r rr.1.r rr.1.p
                           current_pos := rr.1.current_pos + 1 }
    (bgF, ret, af.2 || cl.2.2 || rr.2)

/-- Embedding of `bg_get_length`.  Modelled from the spec: the accessor is
called by mpbg.c but its definition is not among the sources (its header
draft predates it); the spec says MP-BG picks the longest pattern by
`len(pattern)`, so the accessor returns the stored pattern length `n`. -/
def bg_get_length (bg : BGStruct) : Nat := bg.n

/-- Match outputs of a run of `bg_read_char` over a text, from the engine
freshly constructed by `bg_new` with field size `p` and drawn element
`rv`. -/
def bgRunOutputs (pattern : List Nat) (p rv : Nat) (text : List Nat) : List Bool :=
  (text.foldl
    (fun (st : BGStruct × List Bool) c =>
      let r := bg_read_char st.1 c
      (r.1, st.2 ++ [r.2.1]))
    (bg_new pattern pattern.length p rv, [])).2

/-- Number of calls of a `bg_read_char` run during which a
fingerprint-collision log line would have been emitted. -/
def bgRunCollisions (pattern : List Nat) (p rv : Nat) (text : List Nat) : Nat :=
  (text.foldl
    (fun (st : BGStruct × Nat) c =>
      let r := bg_read_char st.1 c
      (r.1, st.2 + (if r.2.2 then 1 else 0)))
    (bg_new pattern pattern.length p rv, 0)).2

/-! ## MP-BG wrapper (mpbg.h, mpbg.c) -/

/-- The sentinel `null_pattern_id`: pattern ids are opaque handles
(`PatternsTreeNode*` in the source); the embedding uses `Nat` with 0 as
the null handle. -/
def null_pattern_id : Nat := 0

/-- Embedding of the C struct `MPBGStruct` after compilation: the array of
`(BGStruct, pattern id)` pairs. -/
structure MPBGStruct where
  pats : List (BGStruct × Nat)
deriving Repr, DecidableEq

/-- Embedding of `mpbg_create` (mpbg.c). -/
def mpbg_create : MPBGStruct := ⟨[]⟩

/-- Embedding of `mpbg_add_pattern` (mpbg.c): builds a BG engine with the
fixed prime `2147483647` and prepends it to the list (the list is in
reverse insertion order, exactly as in the source).  `rv` stands for the
`rand()` draw inside `bg_new`. -/
def mpbg_add_pattern (m : MPBGStruct) (pat : List Nat) (len id rv : Nat) : MPBGStruct :=
  ⟨(bg_new pat len 2147483647 rv, id) :: m.pats⟩

/-- Embedding of `mpbg_compile` (mpbg.c): the pattern list is frozen into
an array, in list order (so reverse insertion order is preserved). -/
def mpbg_compile (m : MPBGStruct) : MPBGStruct := m

/-- Embedding of `mpbg_read_char` (mpbg.c): feed the character to every
engine in order and return the id of the longest pattern whose engine
reported a match (sentinel `null_pattern_id` when none did). -/
def mpbg_read_char (m : MPBGStruct) (c : Nat) : MPBGStruct × Nat :=
  let res := m.pats.foldl
    (fun (st : List (BGStruct × Nat) × Nat × Nat) pi =>
      let r := bg_read_char pi.1 c
      let upd :=
        if r.2.1 ∧ bg_get_length r.1 > st.2.1 then (bg_get_length r.1, pi.2)
        else st.2
      (st.1 ++ [(r.1, pi.2)], upd))
    ([], 0, null_pattern_id)
  (⟨res.1⟩, res.2.2)

/-- Id outputs of a run of `mpbg_read_char` over a text, after adding the
dictionary patterns in order and compiling.  `rv` is the field element
drawn for every engine. -/
def mpbgRunOutputs (dict : List (List Nat × Nat)) (rv : Nat) (text : List Nat) : List Nat :=
  let m := mpbg_compile (dict.foldl
    (fun m pe => mpbg_add_pattern m pe.1 pe.1.length pe.2 rv) mpbg_create)
  (text.foldl
    (fun (st : MPBGStruct × List Nat) c =>
      let r := mpbg_read_char st.1 c
      (r.1, st.2 ++ [r.2]))
    (m, [])).2

/-! ## Patterns tree (PatternsTree.h, PatternsTree.c)

The compiled patterns tree is a parent-pointer structure whose handles
(`pattern_id_t = PatternsTreeNode*`) are compared by pointer identity.
The embedding is an arena: node `i` stores its parent index (or `none`
for the root), and, as ghost data for the specification, the byte string
of the pattern at that node.  Pointer equality becomes index equality,
faithful because distinct live nodes are distinct indices. -/

/-- Arena model of a compiled `PatternsTree`: parent pointers plus the
ghost byte string of every node. -/
structure PatternsTreeModel where
  parents : List (Option Nat)
  strs : List (List Nat)
deriving Repr, DecidableEq

/-- Byte string of node `i` (ghost data of the model). -/
def ptStr (t : PatternsTreeModel) (i : Nat) : List Nat := t.strs.getD i []

/-- The `while (cur != NULL)` walk of `is_pattern_suffix`
(PatternsTree.c), with fuel dominating the parent-chain length: in a tree
whose parent indices strictly decrease (which holds for the arenas built
by the construction, children being allocated after their parent), the
chain from node `i` has at most `i + 1` nodes, so fuel
`parents.length + 1` never runs out on a valid handle. -/
def isPatternSuffixLoop (t : PatternsTreeModel) (suf : Nat) :
    Nat → Option Nat → Bool
  | 0, _ => false
  | _ + 1, none => false
  | fuel + 1, some cur =>
      if cur = suf then true
      else isPatternSuffixLoop t suf fuel (t.parents.getD cur none)

/-- Embedding of `is_pattern_suffix` (PatternsTree.c): `0` for a null
first handle, otherwise walk the parent pointers from `second` until
`first` or the root is passed. -/
def is_pattern_suffix (t : PatternsTreeModel) (first second : Option Nat) : Bool :=
  match first with
  | none => false
  | some suf => isPatternSuffixLoop t suf (t.parents.length + 1) second

/-- Proper-suffix relation on byte strings, the notion used by the
specification of `is_pattern_suffix`. -/
def IsProperSuffix (s t : List Nat) : Prop := s <:+ t ∧ s ≠ t

instance (s t : List Nat) : Decidable (IsProperSuffix s t) := by
  unfold IsProperSuffix; infer_instance

/-! ## Aho-Corasick child-table subscripts (mpac.c)

The AC trie node and compiled state both hold `children[256]`.
`ac_add_pattern` walks `cur->children[pat[i]]` and `ac_read_char` walks
`states[s].children[c]`, where `pat` points to `char` and `c` is a
`char`: the subscript is the signed value of the byte. -/

/-- The child-table subscript the compiled `ac_read_char` (and
`ac_add_pattern`, per pattern byte) evaluates for a stream or pattern
byte `b`: the C `char` value used as array index. -/
def acChildIndex (b : Nat) : Int := signedChar b

/-- The sequence of child-table subscripts `ac_add_pattern` uses while
inserting a pattern. -/
def acAddPatternIndices (pat : List Nat) : List Int := pat.map acChildIndex

/-! ## Concrete inputs used by the claim theorems -/

/-- The pattern `ABCDABDABC` of the repository's own bgps.c test driver. -/
def patABCDABDABC : List Nat := [65, 66, 67, 68, 65, 66, 68, 65, 66, 67]

/-- The text `ABCDABCDABDABCDABDABCDABBABCDABDABCDABDBADFSG` of the
repository's own bgps.c test driver (45 characters; the driver comment
expects matches at indices 13, 20 and 34). -/
def textScenario1 : List Nat :=
  [65, 66, 67, 68, 65, 66, 67, 68, 65, 66, 68, 65, 66, 67, 68, 65, 66, 68,
   65, 66, 67, 68, 65, 66, 66, 65, 66, 67, 68, 65, 66, 68, 65, 66, 67, 68,
   65, 66, 68, 66, 65, 68, 70, 83, 71]

/-- The pattern `AAAAAAAAAAAAAAAAAB` (17 times `A` then `B`, length 18) of
the specification's scenario 6. -/
def patPeriodic18 : List Nat :=
  [65, 65, 65, 65, 65, 65, 65, 65, 65, 65, 65, 65, 65, 65, 65, 65, 65, 66]

/-- Pattern `aaaaaaaaab` over the small alphabet: nine 0-bytes then a
1-byte.  Drives the KMP failure-step counterexample. -/
def c4pat : List Nat := [0, 0, 0, 0, 0, 0, 0, 0, 0, 1]

/-- A 17-character text driving the freshly built engine for `c4pat` into
a buffered state whose next call performs four failure steps. -/
def c4text : List Nat := [0, 0, 0, 0, 0, 0, 0, 0, 0, 2, 0, 0, 0, 0, 2, 0, 0]

/-- The pattern `abababababababab`-style word `(01)^7` over the small
alphabet (length 14).  Its failure chains are long enough to leave
`KMP_LOOP_FAIL_FLAG` dangling. -/
def c3pat : List Nat := [0, 1, 0, 1, 0, 1, 0, 1, 0, 1, 0, 1, 0, 1]

/-- A 32-character text with exactly one occurrence of `c3pat`, ending at
index 31.  Position 13 starts a failure cascade; at position 19 a deep
mismatch inside a buffered call resolves while `KMP_LOOP_FAIL_FLAG` is
already set, leaving the flag dangling with `offset = 1`; the call at
position 20 therefore runs `offset = failure_table[offset]` before
checking the fresh buffered character against `pattern[offset]`, skipping
a genuine single-character match, after which the offset trails the true
matched-prefix length by two for the rest of the run. -/
def c3text : List Nat :=
  [0, 1, 0, 1, 0, 1, 0, 1, 0, 1, 0, 1, 0, 0, 1, 0, 1, 0, 0, 1,
   0, 1, 0, 1, 0, 1, 0, 1, 0, 1, 0, 1]

/-- A `BGStruct` whose stage 0 holds the viable occurrences
`{0, 5}` as the progression `first.pos = 0`, `step.pos = 5`, `n = 2`
(all fingerprint data trivial, field of size 101). -/
def c5bg : BGStruct :=
  { r := ⟨1, 1⟩, current_r := ⟨1, 1⟩, first_stage_r := ⟨1, 1⟩
    current_pos := 0, last_kmp_period_match_pos := 0, current_fp := 0
    p := 101, fps := [0, 0], vos := [⟨⟨⟨1, 1⟩, 0, 0⟩, ⟨⟨1, 1⟩, 5, 0⟩, 2⟩]
    kmp_period := ⟨0, [], [], 0, [], 0, 0, 0⟩, kmp_remaining := none
    last_fps := [0, 0, 0, 0], n := 32, flags := 0, logn := 5, loglogn := 3
    first_stage := 4, current_stage := 0, n_kmp_period := 1
    current_n_kmp_period := 0 }

/-- A two-node patterns tree: root (empty string) with one child holding
the one-byte pattern `a`. -/
def c6tree : PatternsTreeModel := ⟨[none, some 0], [[], [97]]⟩

/-- The field element 2 of the field of size 101, with its inverse 51. -/
def r2of101 : FieldVal := ⟨2, 51⟩

/-! ## Claim theorems -/

/-- C1.  The BG engine loses every match: on the repository's own test
input (pattern `ABCDABDABC`, the 45-character driver text, field size
101, drawn element 2) the pattern occurs ending at positions 13, 20 and
34, yet `bg_read_char` returns 0 at every one of the 45 positions, and no
fingerprint-collision log line is ever emitted during the run; likewise
for the specification's scenario-6 pattern fed to itself (occurrence
ending at 17, all 18 outputs 0, no collision).  The claim that matches
are reported exactly at occurrence end-positions in collision-free runs
is therefore violated by the code: `_bgps_add_vo` compares the stage
index against `logn` instead of the top stage index, so
`BG_HAVE_LAST_STAGE_FLAG` is never set and `_bgps_check_last_stages`
never reports, and the `N_STAGES == 0` path of `bg_read_char` never
advances `current_pos`, so the first-stage position test can never
succeed. -/
theorem bg_read_char_misses_all_occurrences :
    occEnds patABCDABDABC textScenario1 = [13, 20, 34] ∧
    bgRunOutputs patABCDABDABC 101 2 textScenario1 = List.replicate 45 false ∧
    bgRunCollisions patABCDABDABC 101 2 textScenario1 = 0 ∧
    occEnds patPeriodic18 patPeriodic18 = [17] ∧
    bgRunOutputs patPeriodic18 101 2 patPeriodic18 = List.replicate 18 false ∧
    bgRunCollisions patPeriodic18 101 2 patPeriodic18 = 0 :=
  ⟨rfl, rfl, rfl, rfl, rfl, rfl⟩

/-- C2.  MP-BG inherits the BG engine's lost matches: with the dictionary
holding the single scenario-6 pattern (id 1) and the stream equal to that
pattern, an occurrence ends at position 17, yet `mpbg_read_char` returns
the null id at every one of the 18 positions. -/
theorem mpbg_read_char_returns_null_on_match :
    occEnds patPeriodic18 patPeriodic18 = [17] ∧
    mpbgRunOutputs [(patPeriodic18, 1)] 2 patPeriodic18 =
      List.replicate 18 null_pattern_id ∧
    (1 : Nat) ≠ null_pattern_id :=
  ⟨rfl, rfl, by decide⟩

/-- C3.  The real-time KMP engine can miss an occurrence: for the pattern
`(01)^7` (length 14) and the 32-character text `c3text`, the pattern
occurs exactly once, ending at position 31, yet `kmp_read_char` returns 0
at every one of the 32 positions.  Cause: when a buffered character needs
more than two failure steps, `_kmp_read_char` sets `KMP_LOOP_FAIL_FLAG`
and pushes the character back, but if the continued failure chain then
resolves inside the same `kmp_read_char` call (second pop), the resolved
return path of `_kmp_read_char` never clears the flag; the next call then
enters the `KMP_LOOP_FAIL_FLAG` branch and applies
`offset = failure_table[offset]` to a fresh buffered character before
comparing it with `pattern[offset]`, dropping a real match and leaving
the offset permanently behind the true matched-prefix length. -/
theorem kmp_read_char_misses_overlapping_occurrence :
    occEnds c3pat c3text = [31] ∧
    kmpRunOutputs c3pat c3text = List.replicate 32 false :=
  ⟨rfl, rfl⟩

/-- C4, counterexample.  In the run of the freshly built engine for
`c4pat` over `c4text`, the final call (position 16, a `HAVE_BUFFER` call)
executes four `_kmp_move_failure_function` invocations: each of the two
buffered characters it consumes can take two failure steps.  The claim
that every `kmp_read_char` call performs at most two failure steps is
therefore false. -/
theorem kmp_read_char_four_failure_steps :
    kmpRunCounts c4pat c4text = [0, 0, 0, 0, 0, 0, 0, 0, 0, 2, 2, 2, 2, 1, 0, 0, 4] ∧
    ¬ (kmpRunCounts c4pat c4text).all (fun k => decide (k ≤ 2)) :=
  ⟨rfl, by decide⟩

/-- C4, amended.  Per `kmp_read_char` call, the number of
`_kmp_move_failure_function` invocations is at most two in the
`LOOP_FAIL` and direct cases, and at most four in the `HAVE_BUFFER` case
(at most two per buffered character consumed), for every engine state and
character. -/
theorem kmp_read_char_failure_step_bound (kmp : KMPRealTime) (c : Nat) :
    (kmp.flags &&& KMP_LOOP_FAIL_FLAG ≠ 0 → (kmpReadCharCnt kmp c).2.2 ≤ 2) ∧
    (kmp.flags &&& KMP_LOOP_FAIL_FLAG = 0 → kmp.flags &&& KMP_HAVE_BUFFER_FLAG ≠ 0 →
      (kmpReadCharCnt kmp c).2.2 ≤ 4) ∧
    (kmp.flags &&& KMP_LOOP_FAIL_FLAG = 0 → kmp.flags &&& KMP_HAVE_BUFFER_FLAG = 0 →
      (kmpReadCharCnt kmp c).2.2 ≤ 2) := by
  have haux : ∀ (k : KMPRealTime) (ch : Nat), (kmpReadCharAuxCnt k ch).2.2 ≤ 2 := by
    intro k ch
    unfold kmpReadCharAuxCnt
    dsimp only
    split
    · split <;> exact Nat.le_of_sub_eq_zero rfl
    · split
      · exact Nat.le_of_sub_eq_zero rfl
      · split
        · exact Nat.le_of_sub_eq_zero rfl
        · split <;> exact Nat.le_of_sub_eq_zero rfl
  refine ⟨?_, ?_, ?_⟩
  · intro h1
    unfold kmpReadCharCnt
    rw [if_pos h1]
    dsimp only
    split
    · exact Nat.le_of_sub_eq_zero rfl
    · split <;> exact Nat.le_of_sub_eq_zero rfl
  · intro h1 h2
    unfold kmpReadCharCnt
    rw [if_neg (by simp [h1]), if_pos h2]
    dsimp only
    split
    · exact le_trans (haux _ _) (by omega)
    · exact le_trans (Nat.add_le_add (haux _ _) (haux _ _)) (by omega)
  · intro h1 h2
    unfold kmpReadCharCnt
    rw [if_neg (by simp [h1]), if_neg (by simp [h2])]
    exact haux _ _

/-- C4, witness for the amended bound at a concrete state. -/
theorem kmp_read_char_failure_step_bound_witness :
    (kmp_new c4pat 10).flags &&& KMP_LOOP_FAIL_FLAG = 0 ∧
    (kmp_new c4pat 10).flags &&& KMP_HAVE_BUFFER_FLAG = 0 ∧
    (kmpReadCharCnt (kmp_new c4pat 10) 0).2.2 ≤ 2 :=
  ⟨by decide, by decide,
   (kmp_read_char_failure_step_bound (kmp_new c4pat 10) 0).2.2
     (by decide) (by decide)⟩

/-- C5.  `_bgps_add_vo` is off by one against the documented progression:
with stage 0 holding the viable occurrences `{0, 5}` (`first.pos = 0`,
`step.pos = 5`, count 2), the next position of the arithmetic progression
is `first.pos + count * step.pos = 10`, yet the code rejects 10 (treating
it as a fingerprint collision) because it tests
`first.pos + (count + 1) * step.pos`, and instead accepts 15 — after
which the container holds count 3 with `first.pos = 0`, `step.pos = 5`,
i.e. it asserts a viable occurrence at 10 that was never added and drops
the one at 15, corrupting the stored progression. -/
theorem bgps_add_vo_progression_off_by_one :
    (bgAddVo c5bg 0 10 0 ⟨1, 1⟩).2 = false ∧
    (bgAddVo c5bg 0 15 0 ⟨1, 1⟩).2 = true ∧
    ((bgAddVo c5bg 0 15 0 ⟨1, 1⟩).1.vos.getD 0 emptyVO).n = 3 ∧
    ((bgAddVo c5bg 0 15 0 ⟨1, 1⟩).1.vos.getD 0 emptyVO).first.pos = 0 ∧
    ((bgAddVo c5bg 0 15 0 ⟨1, 1⟩).1.vos.getD 0 emptyVO).step.pos = 5 := by
  refine ⟨?_, ?_, ?_, ?_, ?_⟩ <;> decide

/-- C6, counterexample.  `is_pattern_suffix` is reflexive: on the
two-node tree with child node 1 holding the pattern `a`, the call with
both handles equal to node 1 returns true, although the byte string of
node 1 is not a proper suffix of itself.  The claim that
`is_pattern_suffix (a, a)` returns false is therefore wrong: the walk
from `second` starts at `second` itself, so it finds `first`
immediately. -/
theorem is_pattern_suffix_reflexive_counterexample :
    is_pattern_suffix c6tree (some 1) (some 1) = true ∧
    ¬ IsProperSuffix (ptStr c6tree 1) (ptStr c6tree 1) :=
  ⟨by decide, by decide⟩

/-- C7, counterexample.  The fingerprint composition identity fails on a
byte string containing the byte `0xFF`: with the prime field
`(p, r) = (101, 2)` (inverse 51) and the byte strings `a = 00`,
`b = FF`, the value `fp_concat(fp(a), fp(b), r^1)` differs from
`fp(a · b)`.  The cause is the signed `char` in `calc_fp`: the byte
`0xFF` enters the `unsigned long long` product as `2^64 - 1`, whose
reduction mod p depends on the accumulated state, so high bytes break the
algebra (an intermediate unsigned wrap-around the claim rules out). -/
theorem fingerprint_concat_identity_fails_high_byte :
    Nat.Prime 101 ∧ 101 * 101 < 2 ^ 64 ∧
    u64mul r2of101.val r2of101.inv % 101 = 1 ∧ r2of101.val < 101 ∧
    calc_fp_from_prefix_suffix (calc_fp [0] r2of101 101).1
        (calc_fp [255] r2of101 101).1 (calc_fp [0] r2of101 101).2 101 ≠
      (calc_fp ([0] ++ [255]) r2of101 101).1 :=
  ⟨by norm_num, by norm_num, by decide, by decide, by decide⟩

/-- C9.  The Aho-Corasick engine subscripts its 256-entry child tables
with the signed `char` value of the byte: for the byte `0xFF` both
`ac_read_char` and `ac_add_pattern` evaluate the subscript `-1`, outside
`[0, 256)` (an out-of-bounds access), contradicting the claim that any
byte value, including `0x00` and `0xFF`, is handled with an in-range
index. -/
theorem ac_child_index_out_of_range_high_byte :
    acChildIndex 255 = -1 ∧ acAddPatternIndices [255] = [-1] ∧
    ¬ (0 ≤ acChildIndex 255 ∧ acChildIndex 255 < 256) ∧ (255 : Nat) < 256 :=
  ⟨by decide, by decide, by decide, by decide⟩

theorem u64mod_of_lt {a : Nat} (h : a < U64) : a % U64 = a := Nat.mod_eq_of_lt h

theorem p_lt_two32 {p : Nat} (hpp : p * p < U64) : p < 4294967296 := by
  by_contra hge
  push_neg at hge
  have : (4294967296 : Nat) * 4294967296 ≤ p * p := Nat.mul_le_mul hge hge
  unfold U64 at hpp
  omega

theorem fpPoly_append (x : Nat) (a b : List Nat) :
    fpPoly x (a ++ b) = fpPoly x a + x ^ a.length * fpPoly x b := by
  induction a with
  | nil => simp [fpPoly]
  | cons c t ih => simp [fpPoly, ih]; ring

theorem natCast_zmod_inj {p : Nat} (hp : 0 < p) {x y : Nat} (hx : x < p) (hy : y < p)
    (h : (x : ZMod p) = y) : x = y := by
  haveI : NeZero p := ⟨hp.ne'⟩
  have h2 := congrArg ZMod.val h
  rwa [ZMod.val_natCast, ZMod.val_natCast, Nat.mod_eq_of_lt hx, Nat.mod_eq_of_lt hy] at h2

theorem calcFpLoop_spec {p : Nat} (r : FieldVal) (hp : 1 < p) (hpp : p * p < U64)
    (hr : r.val < p) (hi : r.inv < p) :
    ∀ (s : List Nat), (∀ c ∈ s, c < 128) → ∀ ret rn irn, ret < p → rn < p → irn < p →
      (calcFpLoop r p s ret rn irn).1 < p ∧
      (((calcFpLoop r p s ret rn irn).1 : Nat) : ZMod p) =
        (ret : ZMod p) + (rn : ZMod p) * ((fpPoly r.val s : Nat) : ZMod p) ∧
      (calcFpLoop r p s ret rn irn).2.1 = rn * r.val ^ s.length % p ∧
      (calcFpLoop r p s ret rn irn).2.2 = irn * r.inv ^ s.length % p := by
  have hp32 : p < 4294967296 := p_lt_two32 hpp
  have hp0 : 0 < p := by omega
  intro s
  induction s with
  | nil =>
    intro _ ret rn irn hret hrn hirn
    refine ⟨hret, by simp [calcFpLoop, fpPoly], ?_, ?_⟩ <;>
      simp [calcFpLoop, Nat.mod_eq_of_lt hrn, Nat.mod_eq_of_lt hirn]
  | cons c t ih =>
    intro hbytes ret rn irn hret hrn hirn
    have hc : c < 128 := hbytes c (by simp)
    have hct : charToU64 c = c := if_pos hc
    have hmul1 : u64mul (charToU64 c) rn = c * rn := by
      rw [hct]; unfold u64mul U64
      exact Nat.mod_eq_of_lt (by nlinarith)
    have hadd1 : u64add ret (c * rn) = ret + c * rn := by
      unfold u64add U64
      exact Nat.mod_eq_of_lt (by nlinarith)
    have hmul2 : u64mul rn r.val = rn * r.val := by
      unfold u64mul U64
      unfold U64 at hpp
      exact Nat.mod_eq_of_lt (by nlinarith)
    have hmul3 : u64mul irn r.inv = irn * r.inv := by
      unfold u64mul U64
      unfold U64 at hpp
      exact Nat.mod_eq_of_lt (by nlinarith)
    have hstep : calcFpLoop r p (c :: t) ret rn irn =
        calcFpLoop r p t ((ret + c * rn) % p) (rn * r.val % p) (irn * r.inv % p) := by
      show calcFpLoop r p t (u64add ret (u64mul (charToU64 c) rn) % p)
        (u64mul rn r.val % p) (u64mul irn r.inv % p) = _
      rw [hmul1, hadd1, hmul2, hmul3]
    obtain ⟨ih1, ih2, ih3, ih4⟩ := ih (fun x hx => hbytes x (by simp [hx]))
      ((ret + c * rn) % p) (rn * r.val % p) (irn * r.inv % p)
      (Nat.mod_lt _ hp0) (Nat.mod_lt _ hp0) (Nat.mod_lt _ hp0)
    rw [hstep]
    refine ⟨ih1, ?_, ?_, ?_⟩
    · rw [ih2]
      push_cast [ZMod.natCast_mod, fpPoly]
      ring
    · rw [ih3, Nat.mod_mul_mod, List.length_cons]
      congr 1
      ring
    · rw [ih4, Nat.mod_mul_mod, List.length_cons]
      congr 1
      ring

theorem calc_fp_spec {p : Nat} (r : FieldVal) (hp : 1 < p) (hpp : p * p < U64)
    (hr : r.val < p) (hi : r.inv < p) (s : List Nat) (hbytes : ∀ c ∈ s, c < 128) :
    (calc_fp s r p).1 < p ∧
    (((calc_fp s r p).1 : Nat) : ZMod p) = ((fpPoly r.val s : Nat) : ZMod p) ∧
    (calc_fp s r p).2.val = r.val ^ s.length % p ∧
    (calc_fp s r p).2.inv = r.inv ^ s.length % p := by
  obtain ⟨h1, h2, h3, h4⟩ := calcFpLoop_spec r hp hpp hr hi s hbytes 0 1 1
    (by omega) hp hp
  refine ⟨h1, ?_, ?_, ?_⟩
  · simpa [calc_fp] using h2
  · simp only [calc_fp]
    rw [h3, one_mul]
  · simp only [calc_fp]
    rw [h4, one_mul]

theorem modSubBranch {p x y : Nat} (hx : x < p) (hy : y < p) (hU : 2 * p < U64) :
    (if y > x then y - x else u64add (u64sub p x) y) ≤ p ∧
    (((if y > x then y - x else u64add (u64sub p x) y) : Nat) : ZMod p) =
      (y : ZMod p) - (x : ZMod p) := by
  have hxU : x % U64 = x := Nat.mod_eq_of_lt (by omega)
  split
  · rename_i hgt
    constructor
    · omega
    · push_cast [Nat.cast_sub (Nat.le_of_lt hgt)]
      ring
  · rename_i hle
    have hsub : u64sub p x = p - x := by
      unfold u64sub
      rw [hxU]
      have hrw : p + U64 - x = (p - x) + U64 := by omega
      rw [hrw, Nat.add_mod_right]
      exact Nat.mod_eq_of_lt (by omega)
    have hadd : u64add (u64sub p x) y = p - x + y := by
      rw [hsub]
      unfold u64add
      exact Nat.mod_eq_of_lt (by omega)
    rw [hadd]
    constructor
    · omega
    · have hxp : x ≤ p := by omega
      push_cast [Nat.cast_sub hxp]
      rw [ZMod.natCast_self]
      ring

theorem fpIdentitiesAbstract {p : Nat} (hp0 : 0 < p) (hpp : p * p < U64)
    (A B C RV RI : Nat)
    (hA : A < p) (hB : B < p) (hC : C < p) (hRV : RV < p) (hRI : RI < p)
    (hrr1 : (RV : ZMod p) * (RI : ZMod p) = 1)
    (hcastC : (C : ZMod p) = (A : ZMod p) + (RV : ZMod p) * (B : ZMod p)) :
    calc_fp_from_prefix_suffix A B ⟨RV, RI⟩ p = C ∧
    calc_fp_suffix C A ⟨RV, RI⟩ p = B ∧
    calc_fp_pref C B ⟨RV, RI⟩ p = A := by
  have h2p : 2 * p < U64 := by
    rcases Nat.lt_or_ge p 3 with hsm | hge
    · unfold U64
      omega
    · have h1 : 2 * p ≤ p * p := Nat.mul_le_mul_right p (by omega)
      omega
  haveI : NeZero p := ⟨hp0.ne'⟩
  refine ⟨?_, ?_, ?_⟩
  · unfold calc_fp_from_prefix_suffix
    have hm : u64mul B RV = B * RV := by
      unfold u64mul
      exact Nat.mod_eq_of_lt (by nlinarith)
    have hmod : B * RV % p < p := Nat.mod_lt _ hp0
    have hadd : u64add A (B * RV % p) = A + B * RV % p := by
      unfold u64add
      exact Nat.mod_eq_of_lt (by omega)
    rw [hm, hadd]
    refine natCast_zmod_inj hp0 (Nat.mod_lt _ hp0) hC ?_
    rw [ZMod.natCast_mod, hcastC]
    push_cast [ZMod.natCast_mod]
    ring
  · unfold calc_fp_suffix
    obtain ⟨hDle, hDcast⟩ := modSubBranch hA hC h2p
    have hm : u64mul (if C > A then C - A else u64add (u64sub p A) C) RI =
        (if C > A then C - A else u64add (u64sub p A) C) * RI := by
      unfold u64mul
      exact Nat.mod_eq_of_lt (by nlinarith)
    rw [hm]
    refine natCast_zmod_inj hp0 (Nat.mod_lt _ hp0) hB ?_
    rw [ZMod.natCast_mod, Nat.cast_mul, hDcast, hcastC]
    have hs : ((A : ZMod p) + (RV : ZMod p) * (B : ZMod p) - (A : ZMod p)) * (RI : ZMod p) =
        (B : ZMod p) * ((RV : ZMod p) * (RI : ZMod p)) := by ring
    rw [hs, hrr1, mul_one]
  · unfold calc_fp_pref
    have hm : u64mul B RV = B * RV := by
      unfold u64mul
      exact Nat.mod_eq_of_lt (by nlinarith)
    rw [hm]
    have hsp : B * RV % p < p := Nat.mod_lt _ hp0
    obtain ⟨hDle, hDcast⟩ := modSubBranch hsp hC h2p
    refine natCast_zmod_inj hp0 (Nat.mod_lt _ hp0) hA ?_
    rw [ZMod.natCast_mod, hDcast, hcastC, ZMod.natCast_mod]
    push_cast
    ring

/-- C7, amended.  For byte strings without high bytes (every byte below
0x80, so the signed `char` conversion is the identity), and every field
`(p, r)` with `p` prime, `p^2 < 2^64` and a well-formed cached inverse,
the three fingerprint composition identities hold exactly as computed by
`calc_fp`, `calc_fp_from_prefix_suffix`, `calc_fp_suffix` and
`calc_fp_pref` (the last embeds `calc_fp_prefix`), with every
intermediate `unsigned long long` operation free of wrap-around. -/
theorem fingerprint_composition_identities_low_bytes
    (p : Nat) (r : FieldVal) (a b : List Nat)
    (hp : Nat.Prime p) (hpp : p * p < 2 ^ 64)
    (hr : r.val < p) (hi : r.inv < p) (hinv : r.val * r.inv % p = 1)
    (ha : ∀ c ∈ a, c < 128) (hb : ∀ c ∈ b, c < 128) :
    calc_fp_from_prefix_suffix (calc_fp a r p).1 (calc_fp b r p).1 (calc_fp a r p).2 p
        = (calc_fp (a ++ b) r p).1 ∧
    calc_fp_suffix (calc_fp (a ++ b) r p).1 (calc_fp a r p).1 (calc_fp a r p).2 p
        = (calc_fp b r p).1 ∧
    calc_fp_pref (calc_fp (a ++ b) r p).1 (calc_fp b r p).1 (calc_fp a r p).2 p
        = (calc_fp a r p).1 := by
  have hp1 : 1 < p := hp.one_lt
  have hp0 : 0 < p := hp.pos
  have hppU : p * p < U64 := by
    have h64 : (2 : Nat) ^ 64 = U64 := by unfold U64; norm_num
    omega
  haveI : NeZero p := ⟨hp0.ne'⟩
  obtain ⟨hA1, hA2, hA3, hA4⟩ := calc_fp_spec r hp1 hppU hr hi a ha
  obtain ⟨hB1, hB2, hB3, hB4⟩ := calc_fp_spec r hp1 hppU hr hi b hb
  have hab : ∀ c ∈ a ++ b, c < 128 := by
    intro c hc
    rcases List.mem_append.mp hc with h | h
    exacts [ha c h, hb c h]
  obtain ⟨hC1, hC2, hC3, hC4⟩ := calc_fp_spec r hp1 hppU hr hi (a ++ b) hab
  have hrnalt : (calc_fp a r p).2.val < p := by rw [hA3]; exact Nat.mod_lt _ hp0
  have hirnalt : (calc_fp a r p).2.inv < p := by rw [hA4]; exact Nat.mod_lt _ hp0
  have hinvZ : (r.val : ZMod p) * (r.inv : ZMod p) = 1 := by
    have hc := congrArg (fun x : Nat => (x : ZMod p)) hinv
    simpa [ZMod.natCast_mod] using hc
  have hrnZ : ((calc_fp a r p).2.val : ZMod p) = (r.val : ZMod p) ^ a.length := by
    rw [hA3]
    push_cast [ZMod.natCast_mod]
    ring
  have hirnZ : ((calc_fp a r p).2.inv : ZMod p) = (r.inv : ZMod p) ^ a.length := by
    rw [hA4]
    push_cast [ZMod.natCast_mod]
    ring
  have hrr1 : ((calc_fp a r p).2.val : ZMod p) * ((calc_fp a r p).2.inv : ZMod p) = 1 := by
    rw [hrnZ, hirnZ, ← mul_pow, hinvZ, one_pow]
  have hcastC : (((calc_fp (a ++ b) r p).1 : Nat) : ZMod p) =
      (((calc_fp a r p).1 : Nat) : ZMod p) +
        ((calc_fp a r p).2.val : ZMod p) * (((calc_fp b r p).1 : Nat) : ZMod p) := by
    rw [hC2, fpPoly_append, hrnZ, hA2, hB2]
    push_cast
    ring
  exact fpIdentitiesAbstract hp0 hppU (calc_fp a r p).1 (calc_fp b r p).1
    (calc_fp (a ++ b) r p).1 (calc_fp a r p).2.val (calc_fp a r p).2.inv
    hA1 hB1 hC1 hrnalt hirnalt hrr1 hcastC

/-- C7, witness for the amended identities at a concrete instance. -/
theorem fingerprint_composition_identities_low_bytes_witness :
    calc_fp_from_prefix_suffix (calc_fp [1] r2of101 101).1 (calc_fp [2] r2of101 101).1
        (calc_fp [1] r2of101 101).2 101 = (calc_fp ([1] ++ [2]) r2of101 101).1 :=
  (fingerprint_composition_identities_low_bytes 101 r2of101 [1] [2]
    (by norm_num) (by norm_num) (by decide) (by decide) (by decide)
    (by decide) (by decide)).1

theorem suffix_nested {s t u : List Nat} (hs : s <:+ u) (ht : t <:+ u)
    (h : s.length ≤ t.length) : s <:+ t := by
  rw [← List.reverse_prefix] at hs ht ⊢
  exact List.prefix_of_prefix_length_le hs ht (by simpa using h)

theorem properSuffix_trans {s t u : List Nat} (h1 : IsProperSuffix s t)
    (h2 : IsProperSuffix t u) : IsProperSuffix s u := by
  obtain ⟨hs1, hn1⟩ := h1
  obtain ⟨hs2, hn2⟩ := h2
  refine ⟨hs1.trans hs2, ?_⟩
  intro he
  subst he
  have l1 := hs1.length_le
  have l2 := hs2.length_le
  have : t = s := hs2.eq_of_length (by omega)
  exact hn1 this.symm

theorem properSuffix_length_lt {s t : List Nat} (h : IsProperSuffix s t) :
    s.length < t.length := by
  obtain ⟨hs, hn⟩ := h
  rcases Nat.lt_or_ge s.length t.length with hlt | hge
  · exact hlt
  · exact absurd (hs.eq_of_length (Nat.le_antisymm hs.length_le hge)) hn

/-- C6, amended.  On a well-formed compiled patterns tree (parent indices
decrease, the parent's pattern is a proper suffix of the child's and in
fact its longest proper suffix among the tree's patterns, the root is the
only parentless node and holds the empty pattern, and patterns are
distinct), `is_pattern_suffix (a, b)` returns true exactly when `a = b`
or the byte string of `a` is a proper suffix of the byte string of `b`;
in particular `is_pattern_suffix (a, a)` returns true, not false as
claimed. -/
theorem is_pattern_suffix_iff_suffix_or_equal (t : PatternsTreeModel) (a b : Nat)
    (ha : a < t.parents.length) (hb : b < t.parents.length)
    (hwf : ∀ i j, i < t.parents.length → t.parents.getD i none = some j → j < i)
    (hroot : ∀ i, i < t.parents.length → t.parents.getD i none = none → ptStr t i = [])
    (hsub : ∀ i j, i < t.parents.length → t.parents.getD i none = some j →
      IsProperSuffix (ptStr t j) (ptStr t i))
    (hlongest : ∀ i j k, i < t.parents.length → k < t.parents.length →
      t.parents.getD i none = some j → IsProperSuffix (ptStr t k) (ptStr t i) →
      (ptStr t k).length ≤ (ptStr t j).length)
    (hinj : ∀ i j, i < t.parents.length → j < t.parents.length →
      ptStr t i = ptStr t j → i = j) :
    is_pattern_suffix t (some a) (some b) = true ↔
      (a = b ∨ IsProperSuffix (ptStr t a) (ptStr t b)) := by
  have main : ∀ b, b < t.parents.length → ∀ fuel, b < fuel →
      (isPatternSuffixLoop t a fuel (some b) = true ↔
        (b = a ∨ IsProperSuffix (ptStr t a) (ptStr t b))) := by
    intro b
    induction b using Nat.strong_induction_on with
    | _ b ih =>
      intro hbN fuel hfuel
      match fuel, hfuel with
      | f + 1, _ =>
        have hunf : isPatternSuffixLoop t a (f + 1) (some b) =
            (if b = a then true else isPatternSuffixLoop t a f (t.parents.getD b none)) := rfl
        rw [hunf]
        have hnone : ∀ g, isPatternSuffixLoop t a g none = false := by
          intro g
          cases g <;> rfl
        by_cases hba : b = a
        · simp [hba]
        · rw [if_neg hba]
          cases hpar : t.parents.getD b none with
          | none =>
            have hstrb : ptStr t b = [] := hroot b hbN hpar
            rw [hnone f]
            constructor
            · intro hfalse
              cases hfalse
            · intro hor
              rcases hor with h | h
              · exact absurd h hba
              · rw [hstrb] at h
                obtain ⟨hsuf, hne⟩ := h
                have : ptStr t a = [] := List.eq_nil_of_suffix_nil hsuf
                exact absurd this hne
          | some j =>
            have hj : j < b := hwf b j hbN hpar
            have hjN : j < t.parents.length := Nat.lt_trans hj hbN
            have hjf : j < f := by omega
            rw [ih j hj hjN f hjf]
            have hsubj : IsProperSuffix (ptStr t j) (ptStr t b) := hsub b j hbN hpar
            constructor
            · intro hor
              rcases hor with h | h
              · subst h
                exact Or.inr hsubj
              · exact Or.inr (properSuffix_trans h hsubj)
            · intro hor
              rcases hor with h | h
              · exact absurd h hba
              · have hlen : (ptStr t a).length ≤ (ptStr t j).length :=
                  hlongest b j a hbN ha hpar h
                have hnest : ptStr t a <:+ ptStr t j :=
                  suffix_nested h.1 hsubj.1 hlen
                by_cases heq : ptStr t a = ptStr t j
                · exact Or.inl (hinj j a hjN ha heq.symm)
                · exact Or.inr ⟨hnest, heq⟩
  unfold is_pattern_suffix
  rw [main b hb (t.parents.length + 1) (by omega)]
  constructor
  · intro hor
    rcases hor with h | h
    · exact Or.inl h.symm
    · exact Or.inr h
  · intro hor
    rcases hor with h | h
    · exact Or.inl h.symm
    · exact Or.inr h

/-- C6, witness for the amended characterisation on the concrete two-node
tree. -/
theorem is_pattern_suffix_iff_suffix_or_equal_witness :
    is_pattern_suffix c6tree (some 0) (some 1) = true ↔
      ((0 : Nat) = 1 ∨ IsProperSuffix (ptStr c6tree 0) (ptStr c6tree 1)) := by
  refine is_pattern_suffix_iff_suffix_or_equal c6tree 0 1 (by decide) (by decide)
    ?_ ?_ ?_ ?_ ?_
  · intro i j hi hj
    have hi2 : i < 2 := by simpa [c6tree] using hi
    interval_cases i
    · simp [c6tree] at hj
    · simp [c6tree] at hj
      omega
  · intro i hi hp
    have hi2 : i < 2 := by simpa [c6tree] using hi
    interval_cases i
    · decide
    · simp [c6tree] at hp
  · intro i j hi hj
    have hi2 : i < 2 := by simpa [c6tree] using hi
    interval_cases i
    · simp [c6tree] at hj
    · simp [c6tree] at hj
      subst hj
      exact ⟨by decide, by decide⟩
  · intro i j k hi hk hj hks
    have hi2 : i < 2 := by simpa [c6tree] using hi
    have hk2 : k < 2 := by simpa [c6tree] using hk
    interval_cases i
    · simp [c6tree] at hj
    · simp [c6tree] at hj
      subst hj
      interval_cases k
      · decide
      · exact absurd rfl hks.2
  · intro i j hi hj hstr
    have hi2 : i < 2 := by simpa [c6tree] using hi
    have hj2 : j < 2 := by simpa [c6tree] using hj
    interval_cases i <;> interval_cases j <;> first | rfl | (exact absurd hstr (by decide))

theorem calcInvLoop_spec (p a : Nat) (hp : 1 < p) (hpp : p * p < U64) :
    ∀ (fuel r t rr tt : Nat), rr < fuel → 0 < r → rr < r → r ≤ p → t < p →
      ((t : ZMod p) * (a : ZMod p) = (r : ZMod p)) →
      ((tt : ZMod p) * (a : ZMod p) = (rr : ZMod p)) →
      (rr ≠ 0 → ∃ A B : Nat, A * rr + B * r = p ∧ 1 ≤ B ∧ A ≤ p ∧ B ≤ p ∧
        ((t = (p - A) % p ∧ tt = B) ∨ (t = A ∧ tt = p - B))) →
      calcInvLoop p fuel r t rr tt < p ∧
      ((calcInvLoop p fuel r t rr tt : ZMod p) * (a : ZMod p) =
        ((Nat.gcd r rr : Nat) : ZMod p)) := by
  haveI : NeZero p := ⟨by omega⟩
  intro fuel
  induction fuel with
  | zero => intro r t rr tt hfuel; omega
  | succ fuel ih =>
    intro r t rr tt hfuel hr0 hrrr hrp ht hc1 hc2 hghost
    by_cases hrrne : rr = 0
    · subst hrrne
      have hunf : calcInvLoop p (fuel + 1) r t 0 tt = t := by
        show (if (0 : Nat) = 0 then t else _) = t
        rw [if_pos rfl]
      rw [hunf, Nat.gcd_zero_right]
      exact ⟨ht, hc1⟩
    · -- one loop iteration
      have hrr1 : 1 ≤ rr := Nat.one_le_iff_ne_zero.mpr hrrne
      have hq1 : 1 ≤ r / rr := (Nat.one_le_div_iff (by omega)).mpr (le_of_lt hrrr)
      have hqp : r / rr ≤ p := le_trans (Nat.div_le_self r rr) hrp
      have hqrr : (r / rr) * rr ≤ r := Nat.div_mul_le_self r rr
      have hrrEq : r - (r / rr) * rr = r % rr := by
        have hdm : rr * (r / rr) + r % rr = r := Nat.div_add_mod r rr
        have hcm : (r / rr) * rr = rr * (r / rr) := Nat.mul_comm _ _
        omega
      obtain ⟨A, B, hAB, hB1, hAp, hBp, hside⟩ := hghost hrrne
      have hr2 : 2 ≤ r := by omega
      have hBr : B * r ≤ p := by omega
      have hBltp : B < p := by
        have h2B : B * 2 ≤ B * r := Nat.mul_le_mul_left B hr2
        omega
      have htt_le : tt ≤ p := by
        rcases hside with ⟨_, h⟩ | ⟨_, h⟩ <;> omega
      have hqtt : u64mul (r / rr) tt = (r / rr) * tt := by
        unfold u64mul
        exact Nat.mod_eq_of_lt (lt_of_le_of_lt (Nat.mul_le_mul hqp htt_le) hpp)
      have h2p : 2 * p < U64 := by
        have h1 : 2 * p ≤ p * p := Nat.mul_le_mul_right p hp
        omega
      have haddtp : u64add t p = t + p := by
        unfold u64add
        exact Nat.mod_eq_of_lt (by omega)
      have hmodlt : (r / rr) * tt % p < p := Nat.mod_lt _ (by omega)
      have hsubOK : u64sub (t + p) ((r / rr) * tt % p) = t + p - ((r / rr) * tt % p) := by
        unfold u64sub
        have hsm : ((r / rr) * tt % p) % U64 = (r / rr) * tt % p :=
          Nat.mod_eq_of_lt (by omega)
        rw [hsm]
        have hrw : t + p + U64 - (r / rr) * tt % p = (t + p - (r / rr) * tt % p) + U64 := by
          omega
        rw [hrw, Nat.add_mod_right]
        exact Nat.mod_eq_of_lt (by omega)
      have hunf : calcInvLoop p (fuel + 1) r t rr tt =
          calcInvLoop p fuel rr tt (r - (r / rr) * rr)
            (if t > (r / rr) * tt then t - (r / rr) * tt
             else t + p - ((r / rr) * tt % p)) := by
        show (if rr = 0 then t
              else calcInvLoop p fuel rr tt (r - (r / rr) * rr)
                (if t > u64mul (r / rr) tt then t - u64mul (r / rr) tt
                 else u64sub (u64add t p) (u64mul (r / rr) tt % p))) = _
        rw [if_neg hrrne, hqtt, haddtp, hsubOK]
      set q := r / rr with hqdef
      set TT := if t > q * tt then t - q * tt else t + p - (q * tt % p) with hTTdef
      rw [hunf, hrrEq]
      -- cast of TT
      have hTTcast : ((TT : Nat) : ZMod p) = (t : ZMod p) - (q : ZMod p) * (tt : ZMod p) := by
        rw [hTTdef]
        split
        · rename_i hgt
          rw [Nat.cast_sub (le_of_lt hgt), Nat.cast_mul]
        · have hle1 : q * tt % p ≤ t + p := by omega
          rw [Nat.cast_sub hle1, Nat.cast_add, ZMod.natCast_self, ZMod.natCast_mod,
            Nat.cast_mul]
          ring
      have hc2new : ((TT : Nat) : ZMod p) * (a : ZMod p) = ((r % rr : Nat) : ZMod p) := by
        rw [hTTcast]
        have hrm : ((r % rr : Nat) : ZMod p) = ((r - q * rr : Nat) : ZMod p) := by
          rw [hrrEq]
        rw [hrm]
        push_cast [Nat.cast_sub hqrr]
        rw [sub_mul, hc1, mul_assoc, hc2]
      -- TT exactness when the next remainder is nonzero
      have hTTnew : r % rr ≠ 0 → ∃ A2 B2 : Nat, A2 * (r % rr) + B2 * rr = p ∧ 1 ≤ B2 ∧
          A2 ≤ p ∧ B2 ≤ p ∧
          ((tt = (p - A2) % p ∧ TT = B2) ∨ (tt = A2 ∧ TT = p - B2)) := by
        intro hrmne
        have hrm1 : 1 ≤ r % rr := Nat.one_le_iff_ne_zero.mpr hrmne
        rcases hside with ⟨hts, htts⟩ | ⟨hts, htts⟩
        · -- side true: t = (p - A) % p, tt = B; new ghost (B, A + q*B), side false
          refine ⟨B, A + q * B, ?_, ?_, hBp, ?_, Or.inr ⟨htts, ?_⟩⟩
          · -- B * (r % rr) + (A + q*B) * rr = p
            rw [← hrrEq]
            zify [hqrr]
            have hABz : (A : Int) * rr + B * r = p := by exact_mod_cast hAB
            linear_combination hABz
          · have hqB : 1 * 1 ≤ q * B := Nat.mul_le_mul hq1 hB1
            omega
          · -- A + q * B ≤ p
            have hnew : B * (r % rr) + (A + q * B) * rr = p := by
              rw [← hrrEq]
              zify [hqrr]
              have hABz : (A : Int) * rr + B * r = p := by exact_mod_cast hAB
              linear_combination hABz
            have hle1 : (A + q * B) * 1 ≤ (A + q * B) * rr :=
              Nat.mul_le_mul_left _ hrr1
            omega
          · -- TT = p - (A + q * B)
            have hnew : B * (r % rr) + (A + q * B) * rr = p := by
              rw [← hrrEq]
              zify [hqrr]
              have hABz : (A : Int) * rr + B * r = p := by exact_mod_cast hAB
              linear_combination hABz
            have hB1rm : 1 * 1 ≤ B * (r % rr) := Nat.mul_le_mul hB1 hrm1
            have hle1 : (A + q * B) * 1 ≤ (A + q * B) * rr :=
              Nat.mul_le_mul_left _ hrr1
            have hBnew_lt : A + q * B < p := by omega
            rcases Nat.eq_zero_or_pos A with hA0 | hA1
            · -- A = 0: t = p % p = 0, always else branch
              subst hA0
              have ht0 : t = 0 := by
                rw [hts, Nat.sub_zero, Nat.mod_self]
              have hqB1 : 1 * 1 ≤ q * B := Nat.mul_le_mul hq1 hB1
              have hqBp : q * B < p := by omega
              rw [hTTdef, htts, if_neg (by omega), Nat.mod_eq_of_lt hqBp]
              omega
            · -- A >= 1: t = p - A
              have htpA : t = p - A := by
                rw [hts]
                exact Nat.mod_eq_of_lt (by omega)
              have hcase : t > q * B := by
                rw [htpA]
                omega
              rw [hTTdef, htts, if_pos hcase, htpA]
              omega
        · -- side false: t = A, tt = p - B; new ghost (B, A + q*B), side true
          refine ⟨B, A + q * B, ?_, ?_, hBp, ?_, Or.inl ⟨?_, ?_⟩⟩
          · rw [← hrrEq]
            zify [hqrr]
            have hABz : (A : Int) * rr + B * r = p := by exact_mod_cast hAB
            linear_combination hABz
          · have hqB : 1 * 1 ≤ q * B := Nat.mul_le_mul hq1 hB1
            omega
          · have hnew : B * (r % rr) + (A + q * B) * rr = p := by
              rw [← hrrEq]
              zify [hqrr]
              have hABz : (A : Int) * rr + B * r = p := by exact_mod_cast hAB
              linear_combination hABz
            have hle1 : (A + q * B) * 1 ≤ (A + q * B) * rr :=
              Nat.mul_le_mul_left _ hrr1
            omega
          · rw [htts]
            exact (Nat.mod_eq_of_lt (by omega)).symm
          · -- TT = A + q * B
            have hnew : B * (r % rr) + (A + q * B) * rr = p := by
              rw [← hrrEq]
              zify [hqrr]
              have hABz : (A : Int) * rr + B * r = p := by exact_mod_cast hAB
              linear_combination hABz
            have hB1rm : 1 * 1 ≤ B * (r % rr) := Nat.mul_le_mul hB1 hrm1
            have hle1 : (A + q * B) * 1 ≤ (A + q * B) * rr :=
              Nat.mul_le_mul_left _ hrr1
            have hBnew_lt : A + q * B < p := by omega
            have hqB1 : 1 * 1 ≤ q * B := Nat.mul_le_mul hq1 hB1
            have hqpqB : q * (p - B) + q * B = q * p := by
              rw [← Nat.mul_add]
              congr 1
              omega
            have hqpge : p ≤ q * p := Nat.le_mul_of_pos_left p (by omega)
            have hnotgt : ¬ (t > q * (p - B)) := by
              rw [hts]
              intro hgt
              omega
            rw [hTTdef, htts, if_neg hnotgt, hts]
            have hmodv : q * (p - B) % p = p - q * B := by
              have hrw : q * (p - B) = (p - q * B) + (q - 1) * p := by
                zify [hBp, show q * B ≤ p from by omega, hq1]
                ring
              rw [hrw, Nat.add_mul_mod_self_right]
              exact Nat.mod_eq_of_lt (by omega)
            rw [hmodv]
            omega
      -- h5': tt < p
      have httlt : tt < p := by
        rcases hside with ⟨_, h⟩ | ⟨_, h⟩ <;> omega
      -- gcd preservation
      have hgcdEq : Nat.gcd rr (r % rr) = Nat.gcd r rr := by
        rw [Nat.gcd_comm rr (r % rr), ← Nat.gcd_rec rr r, Nat.gcd_comm rr r]
      have hmlt : r % rr < rr := Nat.mod_lt _ (by omega)
      obtain ⟨hres1, hres2⟩ := ih rr tt (r % rr) TT (by omega) (by omega)
        hmlt (by omega) httlt hc2 hc2new hTTnew
      rw [hgcdEq] at hres2
      exact ⟨hres1, hres2⟩

/-- C8.  The field operations preserve well-formedness and the extended
Euclid of `calculate_inverse` is correct: for a field size `p` and
well-formed inputs, `field_mul` and `field_div` produce pairs with
`val < p`, `inv < p` and `val * inv ≡ 1 (mod p)`, and for every `a` with
`0 < a < p` and `gcd(a, p) = 1`, `calculate_inverse a p` lies in `[0, p)`
and multiplies with `a` to 1 modulo p. -/
theorem field_ops_wellformed_and_inverse_correct
    (p v1 i1 v2 i2 a : Nat)
    (hp : 1 < p) (hpp : p * p < 2 ^ 64)
    (h1v : v1 < p) (h1i : i1 < p) (h1 : v1 * i1 % p = 1)
    (h2v : v2 < p) (h2i : i2 < p) (h2 : v2 * i2 % p = 1)
    (ha0 : 0 < a) (hap : a < p) (hgcd : Nat.gcd a p = 1) :
    ((field_mul ⟨v1, i1⟩ ⟨v2, i2⟩ p).val < p ∧
     (field_mul ⟨v1, i1⟩ ⟨v2, i2⟩ p).inv < p ∧
     (field_mul ⟨v1, i1⟩ ⟨v2, i2⟩ p).val * (field_mul ⟨v1, i1⟩ ⟨v2, i2⟩ p).inv % p = 1) ∧
    ((field_div ⟨v1, i1⟩ ⟨v2, i2⟩ p).val < p ∧
     (field_div ⟨v1, i1⟩ ⟨v2, i2⟩ p).inv < p ∧
     (field_div ⟨v1, i1⟩ ⟨v2, i2⟩ p).val * (field_div ⟨v1, i1⟩ ⟨v2, i2⟩ p).inv % p = 1) ∧
    (calculate_inverse a p < p ∧ calculate_inverse a p * a % p = 1) := by
  have hp0 : 0 < p := by omega
  have hppU : p * p < U64 := by
    have h64 : (2 : Nat) ^ 64 = U64 := by unfold U64; norm_num
    omega
  haveI : NeZero p := ⟨hp0.ne'⟩
  have hm1 : u64mul v1 v2 = v1 * v2 := by
    unfold u64mul
    exact Nat.mod_eq_of_lt (by nlinarith)
  have hm2 : u64mul i1 i2 = i1 * i2 := by
    unfold u64mul
    exact Nat.mod_eq_of_lt (by nlinarith)
  have hm3 : u64mul v1 i2 = v1 * i2 := by
    unfold u64mul
    exact Nat.mod_eq_of_lt (by nlinarith)
  have hm4 : u64mul v2 i1 = v2 * i1 := by
    unfold u64mul
    exact Nat.mod_eq_of_lt (by nlinarith)
  have h1Z : (v1 : ZMod p) * (i1 : ZMod p) = 1 := by
    have hc := congrArg (fun x : Nat => (x : ZMod p)) h1
    simpa [ZMod.natCast_mod] using hc
  have h2Z : (v2 : ZMod p) * (i2 : ZMod p) = 1 := by
    have hc := congrArg (fun x : Nat => (x : ZMod p)) h2
    simpa [ZMod.natCast_mod] using hc
  refine ⟨⟨?_, ?_, ?_⟩, ⟨?_, ?_, ?_⟩, ?_⟩
  · show u64mul v1 v2 % p < p
    exact Nat.mod_lt _ hp0
  · show u64mul i1 i2 % p < p
    exact Nat.mod_lt _ hp0
  · show (u64mul v1 v2 % p) * (u64mul i1 i2 % p) % p = 1
    rw [hm1, hm2]
    refine natCast_zmod_inj hp0 (Nat.mod_lt _ hp0) hp ?_
    rw [ZMod.natCast_mod]
    push_cast [ZMod.natCast_mod]
    calc (v1 : ZMod p) * v2 * ((i1 : ZMod p) * i2)
        = ((v1 : ZMod p) * i1) * ((v2 : ZMod p) * i2) := by ring
      _ = 1 := by rw [h1Z, h2Z, one_mul]
  · show u64mul v1 i2 % p < p
    exact Nat.mod_lt _ hp0
  · show u64mul v2 i1 % p < p
    exact Nat.mod_lt _ hp0
  · show (u64mul v1 i2 % p) * (u64mul v2 i1 % p) % p = 1
    rw [hm3, hm4]
    refine natCast_zmod_inj hp0 (Nat.mod_lt _ hp0) hp ?_
    rw [ZMod.natCast_mod]
    push_cast [ZMod.natCast_mod]
    calc (v1 : ZMod p) * i2 * ((v2 : ZMod p) * i1)
        = ((v1 : ZMod p) * i1) * ((v2 : ZMod p) * i2) := by ring
      _ = 1 := by rw [h1Z, h2Z, one_mul]
  · -- calculate_inverse
    have hghost : a ≠ 0 → ∃ A B : Nat, A * a + B * p = p ∧ 1 ≤ B ∧ A ≤ p ∧ B ≤ p ∧
        (((0 : Nat) = (p - A) % p ∧ (1 : Nat) = B) ∨ ((0 : Nat) = A ∧ (1 : Nat) = p - B)) := by
      intro _
      exact ⟨0, 1, by omega, le_refl 1, by omega, by omega,
        Or.inl ⟨by rw [Nat.sub_zero, Nat.mod_self], rfl⟩⟩
    obtain ⟨hlt, hcast⟩ := calcInvLoop_spec p a hp hppU (a + 1) p 0 a 1
      (by omega) hp0 hap (le_refl p) hp0
      (by rw [Nat.cast_zero, zero_mul, ZMod.natCast_self])
      (by rw [Nat.cast_one, one_mul]) hghost
    have hgcdpa : Nat.gcd p a = 1 := by
      rw [Nat.gcd_comm]
      exact hgcd
    rw [hgcdpa, Nat.cast_one] at hcast
    refine ⟨hlt, ?_⟩
    refine natCast_zmod_inj hp0 (Nat.mod_lt _ hp0) hp ?_
    rw [ZMod.natCast_mod, Nat.cast_mul, Nat.cast_one]
    exact hcast

/-- C8, witness at a concrete field. -/
theorem field_ops_wellformed_and_inverse_correct_witness :
    calculate_inverse 5 101 < 101 ∧ calculate_inverse 5 101 * 5 % 101 = 1 :=
  (field_ops_wellformed_and_inverse_correct 101 2 51 3 34 5
    (by norm_num) (by norm_num) (by norm_num) (by norm_num) (by norm_num)
    (by norm_num) (by norm_num) (by norm_num) (by norm_num) (by norm_num)
    (by decide)).2.2

end PatternMatching

